import Mathlib

set_option maxHeartbeats 1600000

namespace GoApiTemplate

/-! # Shallow embedding of the scaffolding engine of go-api-template

Go strings are modelled as `List Char` (rune sequences) or, where only
equality tests occur, as Lean `String`; Go maps used only for lookup are
modelled as association lists.  Source files embedded here:
`internal/scaffold/model.go` and `internal/scaffold/processor.go`. -/

/-! ## Input validators (internal/scaffold/model.go, lines 1304-1328) -/

/-- Character class of the regular expression `[a-z0-9_-]` used by
`isValidProjectName` (model.go line 1309). -/
def isProjectNameChar (c : Char) : Bool :=
  ('a' ≤ c && c ≤ 'z') || ('0' ≤ c && c ≤ '9') || c == '_' || c == '-'

/-- Matching of the anchored regular expression `^[a-z0-9_-]+$`:
one or more characters of the class, nothing else. -/
def matchesProjectNameRegex (s : List Char) : Bool :=
  !s.isEmpty && s.all isProjectNameChar

/-- Function `isValidProjectName` (model.go lines 1305-1311): reject length 0 or above
50, otherwise match `^[a-z0-9_-]+$`.  Go `len` is a byte count and the model
counts runes, but any string containing a multi-byte rune fails the ASCII
character class on both sides, so the two readings agree. -/
def isValidProjectName (s : List Char) : Bool :=
  if s.length = 0 ∨ s.length > 50 then false else matchesProjectNameRegex s

/-- Character class `[a-z0-9./_-]` of `isValidModuleName` (model.go line 1317). -/
def isModuleNameChar (c : Char) : Bool :=
  ('a' ≤ c && c ≤ 'z') || ('0' ≤ c && c ≤ '9') || c == '.' || c == '/' ||
    c == '_' || c == '-'

/-- Function `isValidModuleName` (model.go lines 1313-1319): nonempty, contains a slash,
and matches `^[a-z0-9./_-]+$`. -/
def isValidModuleName (s : List Char) : Bool :=
  if s.length = 0 ∨ ¬ s.contains '/' then false
  else !s.isEmpty && s.all isModuleNameChar

/-- Character class `[a-zA-Z0-9._-]` of the path segments in `isValidPath`
(model.go line 1326). -/
def isPathChar (c : Char) : Bool :=
  ('a' ≤ c && c ≤ 'z') || ('A' ≤ c && c ≤ 'Z') || ('0' ≤ c && c ≤ '9') ||
    c == '.' || c == '_' || c == '-'

mutual

/-- Recognizer for `(/[a-zA-Z0-9._-]+)*$`: a possibly empty run of groups,
each a slash followed by one or more segment characters.  The three mutually
recursive functions are the states of the evident deterministic automaton of
the regular expression; determinization is exact because `/` is not a
segment character, so no backtracking is possible. -/
def slashSegs : List Char → Bool
  | [] => true
  | c :: rest => c == '/' && segStart rest

/-- State just after a `/`: at least one segment character is required. -/
def segStart : List Char → Bool
  | [] => false
  | c :: rest => isPathChar c && segMore rest

/-- State inside a segment: more segment characters, a new `/segment` group,
or the end of the string. -/
def segMore : List Char → Bool
  | [] => true
  | c :: rest => if isPathChar c then segMore rest else c == '/' && segStart rest

end

/-- First alternative of the `isValidPath` regular expression,
`^\.{1,2}(/[a-zA-Z0-9._-]+)*$`.  When the string starts with two dots the
one-dot backtracking branch would have to match `.`‑prefixed text against
`(/segment)*`, which is impossible, so consuming both dots is exhaustive. -/
def goPathAltDots : List Char → Bool
  | '.' :: '.' :: rest => slashSegs rest
  | '.' :: rest => slashSegs rest
  | _ => false

/-- Second alternative, `^[a-zA-Z0-9._-]+(/[a-zA-Z0-9._-]+)*$`: one or more
segment characters (state `segStart`) followed by `/segment` groups. -/
def goPathAltPlain (s : List Char) : Bool :=
  segStart s

/-- Third alternative, `^\./?$`: exactly `.` or `./`. -/
def goPathAltDotSlash (s : List Char) : Bool :=
  s == ['.'] || s == ['.', '/']

/-- Function `isValidPath` (model.go lines 1321-1328): the empty string is valid,
otherwise the string must match the three-alternative regular expression
`^\.{1,2}(/[a-zA-Z0-9._-]+)*$|^[a-zA-Z0-9._-]+(/[a-zA-Z0-9._-]+)*$|^\./?$`. -/
def isValidPath (s : List Char) : Bool :=
  if s.length = 0 then true
  else goPathAltDots s || goPathAltPlain s || goPathAltDotSlash s

mutual

/-- Modelled from the spec: "repetitions of `/` plus a segment" from the
relative-path grammar of §4.1, with segments restricted to
`[a-zA-Z0-9._-]+`.  Recognizer states as for `slashSegs`. -/
def specSlashReps : List Char → Bool
  | [] => true
  | c :: rest => c == '/' && specSegHead rest

/-- Modelled from the spec: a segment must begin with a segment character. -/
def specSegHead : List Char → Bool
  | [] => false
  | c :: rest => isPathChar c && specSegTail rest

/-- Modelled from the spec: the remainder of a segment, optionally followed
by further `/` plus segment repetitions. -/
def specSegTail : List Char → Bool
  | [] => true
  | c :: rest =>
    if isPathChar c then specSegTail rest else c == '/' && specSegHead rest

end

/-- Modelled from the spec: "one or two leading dots optionally followed by
repetitions of `/` plus a segment".  "One or two" is a nondeterministic
choice, so for a two-dot prefix both readings are admitted. -/
def specDots : List Char → Bool
  | '.' :: '.' :: rest => specSlashReps rest || specSlashReps ('.' :: rest)
  | '.' :: rest => specSlashReps rest
  | _ => false

/-- Modelled from the spec: the whole relative-path grammar of §4.1 — the
dots alternative, "or a plain segment optionally followed by repetitions of
`/` plus a segment". -/
def specPathGrammar (s : List Char) : Bool :=
  specDots s || specSegHead s

/-! ## Placeholder rewriting (internal/scaffold/processor.go, lines 645-720) -/

/-- Whether `pat` occurs as a contiguous substring of the second argument
(Go `strings.Contains`). -/
def occursIn (pat : List Char) : List Char → Bool
  | [] => pat.isEmpty
  | c :: rest => pat.isPrefixOf (c :: rest) || occursIn pat rest

/-- Go `strings.ReplaceAll s pat rep` for a nonempty `pat`, with explicit
fuel bounding the number of scan steps: scan left to right, replacing
non-overlapping occurrences.  Each step consumes at least one character of
`s`, so fuel `s.length` (used by `replaceAll` below) always suffices. -/
def replaceAllFuel (pat rep : List Char) : Nat → List Char → List Char
  | _, [] => []
  | 0, s => s
  | fuel + 1, c :: rest =>
    if pat ≠ [] ∧ pat.isPrefixOf (c :: rest) then
      rep ++ replaceAllFuel pat rep fuel ((c :: rest).drop pat.length)
    else
      c :: replaceAllFuel pat rep fuel rest

/-- Go `strings.ReplaceAll s pat rep` for a nonempty `pat`.  (Go treats an
empty `pat` specially, inserting `rep` between runes; the program only ever
passes the two fixed nonempty placeholder literals, and for `pat = []` this
model returns the input unchanged.) -/
def replaceAll (s pat rep : List Char) : List Char :=
  replaceAllFuel pat rep s.length s

/-- The template module placeholder `go_platform_template`
(processor.go line 646). -/
def templateModule : List Char := "go_platform_template".data

/-- The template project-name placeholder `go-platform-template`
(processor.go line 647). -/
def templateName : List Char := "go-platform-template".data

/-- Go `filepath.Base`: empty path gives `.`, trailing slashes are stripped,
then everything up to the last remaining slash is dropped; an all-slash path
gives `/`. -/
def goFilepathBase (p : List Char) : List Char :=
  if p = [] then ['.']
  else
    let q := p.reverse.dropWhile (fun c => c == '/')
    if q = [] then ['/']
    else (q.takeWhile (fun c => !(c == '/'))).reverse

/-- Function `isConfigFile` (processor.go lines 702-720): extension is one of
`.yaml`, `.yml`, `.json`, `.toml`, or the base name is `Makefile` or
`Dockerfile`. -/
def isConfigFile (path : List Char) : Bool :=
  [".yaml".data, ".yml".data, ".json".data, ".toml".data].any
      (fun ext => ext.isSuffixOf path) ||
    ["Makefile".data, "Dockerfile".data].any
      (fun n => goFilepathBase path == n)

/-- The per-file transformation applied by the `filepath.Walk` body of
`replaceModuleNames` (processor.go lines 650-684): `.go` files get the module
placeholder replaced by `moduleName` and then the name placeholder replaced
by `projectName`; config files get only the name placeholder replaced; every
other file is untouched. -/
def rewriteFileContent (path content projectName moduleName : List Char) :
    List Char :=
  if ".go".data.isSuffixOf path then
    replaceAll (replaceAll content templateModule moduleName)
      templateName projectName
  else if isConfigFile path then
    replaceAll content templateName projectName
  else content

/-- Decidable side conditions under which `replaceAll _ pat rep` can neither
keep nor recreate an occurrence of `p`: `pat` and `rep` are nonempty, `p`
does not occur in `rep`, no nonempty suffix of `rep` is a prefix of `p`, and
the first character of `rep` does not appear in `p` after position 0. -/
def safeRepl (p pat rep : List Char) : Bool :=
  !pat.isEmpty && !rep.isEmpty && !(occursIn p rep) &&
    rep.tails.all (fun u => u.isEmpty || !(u.isPrefixOf p)) &&
    (match rep with
     | [] => false
     | h :: _ => !((p.drop 1).contains h))

/-! ## Feature catalog and dependency resolver
(internal/scaffold/model.go, lines 34-39, 148-203, 300-315, 1330-1380) -/

/-- Struct `Feature` (model.go lines 34-39); the Go field `Default` is rendered
`isDefault`. -/
structure Feature where
  name : String
  description : String
  selected : Bool
  isDefault : Bool
deriving DecidableEq, Repr

/-- The `featureDependencies` map built in `NewModel` (model.go lines
149-157), as an association list (the map is only ever used for lookups). -/
def featureDependencies : List (String × List String) :=
  [("User Management", ["Authentication (JWT)"]),
   ("File Storage", ["Database"]),
   ("Authentication (JWT)", []),
   ("Database", []),
   ("API Docs", []),
   ("Docker", []),
   ("Podman", [])]

/-- Lookup in a Go `map[string][]string`, `deps, ok := g[name]`. -/
def lookupDeps (g : List (String × List String)) (n : String) :
    Option (List String) :=
  (g.find? (fun e => e.1 == n)).map (fun e => e.2)

/-- The feature catalog built in `NewModel` (model.go lines 160-203). -/
def initialFeatures : List Feature :=
  [⟨"Authentication (JWT)", "JWT-based auth with token rotation", true, true⟩,
   ⟨"User Management", "User registration, profiles, RBAC", true, true⟩,
   ⟨"Database", "PostgreSQL integration with migrations", true, true⟩,
   ⟨"File Storage", "MinIO S3-compatible file storage", true, true⟩,
   ⟨"API Docs", "Auto-generated Swagger documentation", true, true⟩,
   ⟨"Docker", "Docker and Docker Compose setup", true, true⟩,
   ⟨"Podman", "Podman and Podman Compose setup", false, false⟩]

/-- The inner check of `checkDependents` (model.go lines 1362-1369): every
dependency name has a selected feature carrying it. -/
def depsMet (fs : List Feature) (deps : List String) : Bool :=
  deps.all (fun d => fs.any (fun f => f.name == d && f.selected))

/-- A feature the `checkDependents` scan would deselect: it is selected, has
a `featureDependencies` entry, and some listed dependency is unmet. -/
def violates (g : List (String × List String)) (fs : List Feature)
    (f : Feature) : Bool :=
  f.selected &&
    (match lookupDeps g f.name with
     | none => false
     | some deps => !depsMet fs deps)

/-- One scan pass of `checkDependents` (model.go lines 1351-1379): walk the
list, and at the first violating feature clear its `Selected` flag and stop,
reporting the updated list; report `none` when the scan finds no violation.
`whole` is the full feature list against which dependencies are checked. -/
def deselectFirstViolator (g : List (String × List String))
    (whole : List Feature) : List Feature → Option (List Feature)
  | [] => none
  | f :: rest =>
    if violates g whole f then some ({ f with selected := false } :: rest)
    else (deselectFirstViolator g whole rest).map (fun r => f :: r)

/-- Number of selected features. -/
def selectedCount (fs : List Feature) : Nat :=
  fs.countP (fun f => f.selected)

/-- Function `checkDependents` with explicit fuel: each recursive self-call of the Go
function happens right after a `Selected` flag is cleared, and the fuel
bounds the recursion depth. -/
def checkDependentsFuel (g : List (String × List String)) :
    Nat → List Feature → List Feature
  | 0, fs => fs
  | fuel + 1, fs =>
    match deselectFirstViolator g fs fs with
    | none => fs
    | some fs1 => checkDependentsFuel g fuel fs1

/-- Function `checkDependents` (model.go lines 1350-1380).  `selectedCount fs + 1`
levels of recursion always suffice because every self-call strictly decreases
the number of selected features (theorem `c9_checkDependents_terminates`). -/
def checkDependents (g : List (String × List String)) (fs : List Feature) :
    List Feature :=
  checkDependentsFuel g (selectedCount fs + 1) fs

/-- Set the `Selected` flag of the first feature named `d`, as the inner loop
of `enableDependencies` does (model.go lines 1338-1344, with `break` after
the first match). -/
def selectFirstByName : List Feature → String → List Feature
  | [], _ => []
  | f :: rest, d =>
    if f.name == d then { f with selected := true } :: rest
    else f :: selectFirstByName rest d

/-- Function `enableDependencies` with explicit fuel (model.go lines 1331-1347): look
up the dependency list of `name`; for each dependency that exists in the
feature list, select it and recurse on its own dependencies.  The Go
recursion never reads `Selected` flags and terminates because the static
graph is acyclic; fuel `fs.length` (used by `enableDependencies` below) is
more than the longest dependency chain of `featureDependencies`, so the
fueled model agrees with the Go function on the program's graph. -/
def enableDependenciesFuel (g : List (String × List String)) :
    Nat → String → List Feature → List Feature
  | 0, _, fs => fs
  | fuel + 1, name, fs =>
    match lookupDeps g name with
    | none => fs
    | some deps =>
      deps.foldl
        (fun acc d =>
          if acc.any (fun f => f.name == d) then
            enableDependenciesFuel g fuel d (selectFirstByName acc d)
          else acc)
        fs

/-- Function `enableDependencies` (model.go lines 1331-1347). -/
def enableDependencies (g : List (String × List String)) (name : String)
    (fs : List Feature) : List Feature :=
  enableDependenciesFuel g fs.length name fs

/-- Set the `Selected` flag of the feature at index `i` (the direct mutation
`feature.Selected = ...` through the pointer taken at model.go line 302). -/
def setSelectedAt (fs : List Feature) (i : Nat) (b : Bool) : List Feature :=
  match fs.get? i with
  | none => fs
  | some f => fs.set i { f with selected := b }

/-- The `tea.KeySpace` handler in the `StateFeatures` case (model.go lines
300-315): deselecting runs `checkDependents`; selecting runs
`enableDependencies` on the toggled feature's name and then
`checkDependents`.  An out-of-range index (impossible in the TUI, where the
cursor is kept in range) leaves the list unchanged. -/
def toggleFeature (g : List (String × List String)) (fs : List Feature)
    (i : Nat) : List Feature :=
  match fs.get? i with
  | none => fs
  | some f =>
    if f.selected then
      checkDependents g (setSelectedAt fs i false)
    else
      checkDependents g (enableDependencies g f.name (setSelectedAt fs i true))

/-- A sequence of space-key toggle events applied in order. -/
def applyToggles (g : List (String × List String)) (fs : List Feature)
    (events : List Nat) : List Feature :=
  events.foldl (toggleFeature g) fs

/-- The select operation exactly as claim C8 phrases it: set the feature's
`Selected` flag, then run `enableDependencies` on its name. -/
def selectOp (g : List (String × List String)) (fs : List Feature)
    (i : Nat) : List Feature :=
  match fs.get? i with
  | none => fs
  | some f => enableDependencies g f.name (setSelectedAt fs i true)

/-- The feature catalog with an arbitrary assignment of `Selected` flags:
every state of the catalog reachable in the wizard has this shape. -/
def featuresWithFlags (b : List Bool) : List Feature :=
  (initialFeatures.zip b).map (fun p => { p.1 with selected := p.2 })

/-! ## Wizard controller (internal/scaffold/model.go, lines 14-32, 50-94,
96-232, 238-533) -/

/-- Enum `State` (model.go lines 14-32). -/
inductive State where
  | StateMainMenu
  | StateWelcome
  | StateProjectName
  | StateModuleName
  | StateProjectPath
  | StateFeatures
  | StateEnvVars
  | StateConfirm
  | StateProcessing
  | StateSuccess
  | StateError
  | StateDevelopmentMenu
  | StateBuildTestMenu
  | StateCodeQualityMenu
  | StateDepsMenu
deriving DecidableEq, Repr

/-- Struct `MenuItem` (model.go lines 44-48). -/
structure MenuItem where
  label : String
  description : String
  action : String
deriving DecidableEq, Repr

/-- Go `unicode.IsSpace` restricted to the Latin-1 range (space, tab,
newline, vertical tab, form feed, carriage return, NEL, NBSP); the model
only ever trims ASCII input. -/
def isGoSpace (c : Char) : Bool :=
  c == ' ' || c == '\t' || c == '\n' || c == Char.ofNat 11 ||
    c == Char.ofNat 12 || c == '\r' || c == Char.ofNat 133 ||
    c == Char.ofNat 160

/-- Go `strings.TrimSpace`. -/
def trimSpace (s : List Char) : List Char :=
  ((s.dropWhile isGoSpace).reverse.dropWhile isGoSpace).reverse

/-- Function `strings.TrimSpace` on `String`. -/
def trimSpaceS (s : String) : String := ⟨trimSpace s.data⟩

/-- Function `isValidProjectName` on `String`. -/
def isValidProjectNameS (s : String) : Bool := isValidProjectName s.data

/-- Function `isValidModuleName` on `String`. -/
def isValidModuleNameS (s : String) : Bool := isValidModuleName s.data

/-- Function `isValidPath` on `String`. -/
def isValidPathS (s : String) : Bool := isValidPath s.data

/-- Update-or-insert into a Go `map[string]string` modelled as an
association list. -/
def mapInsert : List (String × String) → String → String →
    List (String × String)
  | [], k, v => [(k, v)]
  | (k0, v0) :: rest, k, v =>
    if k0 == k then (k, v) :: rest else (k0, v0) :: mapInsert rest k v

/-- Lookup in a Go `map[string]string`. -/
def mapGet? (l : List (String × String)) (k : String) : Option String :=
  (l.find? (fun e => e.1 == k)).map (fun e => e.2)

/-- List `envKeys` (model.go lines 441, 448). -/
def envKeys : List String :=
  ["DB_HOST", "DB_PORT", "DB_USER", "DB_PASSWORD", "DB_NAME", "JWT_SECRET",
   "MINIO_ACCESS_KEY", "MINIO_SECRET_KEY"]

/-- The `defaults` map of the `StateEnvVars` enter handler (model.go lines
449-458). -/
def envDefaults (projectName : String) : List (String × String) :=
  [("DB_HOST", "localhost"), ("DB_PORT", "5432"), ("DB_USER", "postgres"),
   ("DB_PASSWORD", "postgres"), ("DB_NAME", projectName),
   ("JWT_SECRET", "your-secret-key-change-in-production"),
   ("MINIO_ACCESS_KEY", "minioadmin"), ("MINIO_SECRET_KEY", "minioadmin")]

/-- Stand-in for the long static text of `getHelpText` (model.go lines
1383-1415); only its identity matters to the state machine, never its
contents (pure view text). -/
def helpText : String := "KEYBOARD SHORTCUTS AND INSTRUCTIONS"

/-- The controller state of `Model` (model.go lines 50-94), restricted to
the fields the `Update` key handlers read or write.  The three `textinput`
widgets are modelled by their string values `input0`-`input2`; issuing
`tea.Quit` is modelled by the `quitting` flag and dispatching
`processScaffold` by the `dispatched` flag.  Styling, spinner and window
size are view-layer state and omitted. -/
structure WModel where
  state : State
  projectName : String
  moduleName : String
  projectPath : String
  input0 : String
  input1 : String
  input2 : String
  focusIndex : Nat
  features : List Feature
  featureFocus : Nat
  menuItems : List MenuItem
  menuFocus : Nat
  envVars : List (String × String)
  envFocus : Nat
  envEditing : Bool
  envInput : String
  err : Option String
  message : String
  warning : String
  projectNameValid : Bool
  moduleNameValid : Bool
  projectPathValid : Bool
  quitting : Bool
  dispatched : Bool
deriving DecidableEq, Repr

/-- Constructor `NewModel` (model.go lines 96-232), restricted to the modelled fields. -/
def newModel : WModel where
  state := State.StateMainMenu
  projectName := ""
  moduleName := ""
  projectPath := "."
  input0 := ""
  input1 := ""
  input2 := ""
  focusIndex := 0
  features := initialFeatures
  featureFocus := 0
  menuItems :=
    [⟨"Create New Project", "Create project from template with feature selection", "create"⟩,
     ⟨"Help", "View keyboard shortcuts and documentation", "help"⟩,
     ⟨"Exit", "Exit the scaffolder", "exit"⟩]
  menuFocus := 0
  envVars := []
  envFocus := 0
  envEditing := false
  envInput := ""
  err := none
  message := ""
  warning := ""
  projectNameValid := false
  moduleNameValid := false
  projectPathValid := false
  quitting := false
  dispatched := false

/-- The `tea.KeyEnter` branch of `Update` (model.go lines 356-492), state by
state. -/
def updateEnter (m : WModel) : WModel :=
  match m.state with
  | State.StateMainMenu =>
    match m.menuItems.get? m.menuFocus with
    | none => m
    | some item =>
      if item.action == "create" then { m with state := State.StateWelcome }
      else if item.action == "help" then
        { m with state := State.StateWelcome, message := helpText,
                 warning := "Press CTRL+C to return to menu" }
      else if item.action == "exit" then { m with quitting := true }
      else m
  | State.StateWelcome =>
    { m with state := State.StateProjectName, focusIndex := 0 }
  | State.StateProjectName =>
    let pn := trimSpaceS m.input0
    if pn == "" then
      { m with projectName := pn, err := some "project name is required",
               state := State.StateError }
    else if !isValidProjectNameS pn then
      { m with projectName := pn,
               err := some "invalid format: use lowercase, numbers, hyphens, underscores",
               state := State.StateError }
    else
      { m with projectName := pn, projectNameValid := true,
               state := State.StateModuleName, focusIndex := 1, input1 := "" }
  | State.StateModuleName =>
    let mn0 := trimSpaceS m.input1
    let mn := if mn0 == "" then "github.com/example/" ++ m.projectName else mn0
    if !isValidModuleNameS mn then
      { m with moduleName := mn,
               err := some "invalid module format: use \x27domain.com/org/project\x27",
               state := State.StateError }
    else
      { m with moduleName := mn, moduleNameValid := true,
               state := State.StateProjectPath, focusIndex := 2, input2 := "." }
  | State.StateProjectPath =>
    let pp0 := trimSpaceS m.input2
    let pp := if pp0 == "" then "." else pp0
    if !isValidPathS pp then
      { m with projectPath := pp,
               err := some "invalid path: use relative path like \x27.\x27 or \x27./projects\x27",
               state := State.StateError }
    else
      { m with projectPath := pp, projectPathValid := true,
               state := State.StateFeatures, featureFocus := 0 }
  | State.StateFeatures =>
    { m with state := State.StateEnvVars, envFocus := 0 }
  | State.StateEnvVars =>
    if m.envEditing then
      let m1 :=
        match envKeys.get? m.envFocus with
        | some k => { m with envVars := mapInsert m.envVars k m.envInput }
        | none => m
      { m1 with envEditing := false, envInput := "" }
    else
      match envKeys.get? m.envFocus with
      | some k =>
        let current :=
          match mapGet? m.envVars k with
          | some v => v
          | none => (mapGet? (envDefaults m.projectName) k).getD ""
        { m with envInput := current, envEditing := true }
      | none => m
  | State.StateConfirm =>
    { m with state := State.StateProcessing, dispatched := true }
  | State.StateError =>
    { m with state := State.StateWelcome, input0 := "", input1 := "",
             input2 := "", projectName := "", moduleName := "",
             projectPath := ".", projectNameValid := false,
             moduleNameValid := false, projectPathValid := false,
             err := none, focusIndex := 0 }
  | State.StateSuccess => { m with quitting := true }
  | _ => m

/-- The `tea.KeyTab` branch of `Update` (model.go lines 317-336): in the
three text-input states the focus cycles modulo the number of reachable
inputs; in `StateEnvVars`, when not editing, Tab jumps straight to
`StateConfirm`. -/
def updateTab (m : WModel) : WModel :=
  match m.state with
  | State.StateProjectName =>
    let fi := m.focusIndex + 1
    { m with focusIndex := if fi ≥ 1 then 0 else fi }
  | State.StateModuleName =>
    let fi := m.focusIndex + 1
    { m with focusIndex := if fi ≥ 2 then 0 else fi }
  | State.StateProjectPath =>
    let fi := m.focusIndex + 1
    { m with focusIndex := if fi ≥ 3 then 0 else fi }
  | State.StateEnvVars =>
    if !m.envEditing then { m with state := State.StateConfirm } else m
  | _ => m

/-! ## Project materializer (internal/scaffold/processor.go, lines 45-107,
116-192, 334-441, 443-604, 722-746) -/

/-- Outcomes of the external `git` process invocations made by
`initializeGit` (processor.go lines 722-746): `none` is success, `some e`
a failure with message `e`. -/
structure GitOutcomes where
  initErr : Option String
  configEmailErr : Option String
  configNameErr : Option String
  addErr : Option String
  commitErr : Option String
deriving DecidableEq, Repr

/-- Function `initializeGit` (processor.go lines 722-746): a `git init` failure is
returned to the caller; the four follow-up commands (two `git config`,
`git add .`, `git commit`) discard their errors (`_ = cmd.Run()`), so the
function returns `none` whenever `git init` succeeded. -/
def initializeGit (g : GitOutcomes) : Option String :=
  match g.initErr with
  | some e => some e
  | none => none

/-- Environment of one `createProject` run (processor.go lines 45-107): for
each filesystem/template sub-step, whether it would fail and with what
message.  `statSaysExists` is `os.Stat(projectDir) == nil`, i.e. the target
directory already exists. -/
structure StepOutcomes where
  statSaysExists : Bool
  mkdirErr : Option String
  copyBaseErr : Option String
  copyFeaturesErr : Option String
  genMainErr : Option String
  genRoutesErr : Option String
  replaceErr : Option String
  git : GitOutcomes
deriving DecidableEq, Repr

/-- Function `createProject` (processor.go lines 45-107) as a function of its step
outcomes, returning the Go error result together with whether `projectDir`
exists when the function returns.  `os.RemoveAll` is modelled as removing
the directory (its own error value is discarded by the Go code).  Each
failing step after directory creation runs `os.RemoveAll(projectDir)` and
returns a wrapped error. -/
def createProject (o : StepOutcomes) : Except String Unit × Bool :=
  if o.statSaysExists then
    (Except.error "directory already exists", true)
  else
    match o.mkdirErr with
    | some e => (Except.error ("failed to create project directory: " ++ e), false)
    | none =>
      match o.copyBaseErr with
      | some e => (Except.error ("failed to copy base files: " ++ e), false)
      | none =>
        match o.copyFeaturesErr with
        | some e => (Except.error ("failed to copy features: " ++ e), false)
        | none =>
          match o.genMainErr with
          | some e => (Except.error ("failed to generate main.go: " ++ e), false)
          | none =>
            match o.genRoutesErr with
            | some e => (Except.error ("failed to generate routes.go: " ++ e), false)
            | none =>
              match o.replaceErr with
              | some e => (Except.error ("failed to update module names: " ++ e), false)
              | none =>
                match initializeGit o.git with
                | some e => (Except.error ("failed to initialize git: " ++ e), false)
                | none => (Except.ok (), true)

/-- The `featureMap` from feature name to feature directory id used by
`copySelectedFeaturesFromEmbed` (processor.go lines 120-127).  `Podman` has
no entry. -/
def featureMap : List (String × String) :=
  [("Authentication (JWT)", "auth"),
   ("User Management", "user-management"),
   ("Database", "database"),
   ("File Storage", "file-storage"),
   ("API Docs", "api-docs"),
   ("Docker", "docker")]

/-- Lookup `featureID, ok := featureMap[featureName]`. -/
def lookupFeatureID (n : String) : Option String :=
  (featureMap.find? (fun e => e.1 == n)).map (fun e => e.2)

/-- The seven feature names that key the `selectedFeatures` map built by
`processScaffold` (processor.go lines 31-34) from the catalog. -/
def catalogNames : List String :=
  ["Authentication (JWT)", "User Management", "Database", "File Storage",
   "API Docs", "Docker", "Podman"]

/-- The feature directories `copySelectedFeaturesFromEmbed` (processor.go
lines 116-192) actually processes: selected features that have a
`featureMap` entry.  (Go iterates the map in unspecified order; the model
fixes the catalog order, which does not affect which overlays are copied.) -/
def overlayFeatureIDs (sel : String → Bool) : List String :=
  catalogNames.filterMap (fun n => if sel n then lookupFeatureID n else none)

/-- The template context struct filled by `generateMainGo` (processor.go
lines 400-416) and `generateRoutesGo` (lines 563-579): the module path and
six flags read from `selectedFeatures`; a missing key reads as `false` in
Go, matching function application here. -/
structure TemplateData where
  module : String
  hasAuth : Bool
  hasUser : Bool
  hasDatabase : Bool
  hasFile : Bool
  hasDocs : Bool
  hasDocker : Bool
deriving DecidableEq, Repr

/-- The `data` value of `generateMainGo` (processor.go lines 400-416). -/
def generateMainGoData (moduleName : String) (sel : String → Bool) :
    TemplateData :=
  ⟨moduleName, sel "Authentication (JWT)", sel "User Management",
   sel "Database", sel "File Storage", sel "API Docs", sel "Docker"⟩

/-- The `data` value of `generateRoutesGo` (processor.go lines 563-579). -/
def generateRoutesGoData (moduleName : String) (sel : String → Bool) :
    TemplateData :=
  ⟨moduleName, sel "Authentication (JWT)", sel "User Management",
   sel "Database", sel "File Storage", sel "API Docs", sel "Docker"⟩

/-- Override one key of a `map[string]bool` modelled as a function. -/
def setSel (sel : String → Bool) (k : String) (b : Bool) : String → Bool :=
  fun n => if n == k then b else sel n

/-! ## Theorems -/

/-- C6: for every string `s`, `isValidProjectName s` returns true if and
only if `s` is non-empty, has length at most 50, and matches the regular
expression `^[a-z0-9_-]+$` (every character in the class `[a-z0-9_-]`, at
least one character). -/
theorem c6_isValidProjectName_law (s : List Char) :
    isValidProjectName s = true ↔
      s ≠ [] ∧ s.length ≤ 50 ∧ ∀ c ∈ s, isProjectNameChar c = true := by
  unfold isValidProjectName matchesProjectNameRegex
  split
  · next h =>
    simp only [Bool.false_eq_true, false_iff, not_and]
    intro h1 h2
    rcases h with h0 | h0
    · exact absurd (List.length_eq_zero.mp h0) h1
    · omega
  · next h =>
    push_neg at h
    rw [Bool.and_eq_true, List.all_eq_true]
    constructor
    · rintro ⟨-, h3⟩
      exact ⟨fun he => h.1 (by simp [he]), h.2, h3⟩
    · rintro ⟨h1, -, h3⟩
      refine ⟨?_, h3⟩
      cases s with
      | nil => exact absurd rfl h1
      | cons a t => rfl

/-- Witness for C6 at the concrete string `my-project`. -/
theorem c6_isValidProjectName_law_witness :
    isValidProjectName "my-project".data = true :=
  (c6_isValidProjectName_law "my-project".data).mpr
    ⟨by decide, by decide, by decide⟩

/-- The spec-modelled grammar automaton states agree with the regex
automaton states compiled from model.go: the two recognizers are the same
state machine. -/
theorem specStates_eq (l : List Char) :
    specSlashReps l = slashSegs l ∧ specSegHead l = segStart l ∧
      specSegTail l = segMore l := by
  induction l with
  | nil => exact ⟨rfl, rfl, rfl⟩
  | cons c rest ih =>
    refine ⟨?_, ?_, ?_⟩
    · simp only [specSlashReps, slashSegs, ih.2.1]
    · simp only [specSegHead, segStart, ih.2.2]
    · simp only [specSegTail, segMore, ih.2.1, ih.2.2]

/-- The spec-modelled dots alternative agrees with the first regex
alternative: the extra one-dot reading of a two-dot prefix can never match
`(/segment)*`. -/
theorem specDots_eq (s : List Char) : specDots s = goPathAltDots s := by
  rw [specDots.eq_def, goPathAltDots.eq_def]
  split
  · rename_i rest
    rw [(specStates_eq rest).1, (specStates_eq _).1]
    have h2 : slashSegs ('.' :: rest) = false := by
      simp [slashSegs, segStart]
    rw [h2, Bool.or_false]
  · rename_i rest _
    exact (specStates_eq rest).1
  · rfl

/-- C7 counterexample: the string `./` is accepted by `isValidPath` (third
regex alternative `^\./?$`) but is not in the spec's relative-path grammar,
refuting the claimed equivalence for non-empty strings. -/
theorem c7_counterexample :
    isValidPath "./".data = true ∧ specPathGrammar "./".data = false ∧
      "./".data ≠ [] :=
  ⟨by decide, by decide, by decide⟩

/-- C7 amended: `isValidPath ""` is true, and a non-empty string is accepted
exactly when it is in the spec's relative-path grammar or is the extra
string `./` admitted by the regex alternative `^\./?$`. -/
theorem c7_isValidPath_law (s : List Char) :
    isValidPath s = true ↔
      s = [] ∨ specPathGrammar s = true ∨ s = ['.', '/'] := by
  unfold isValidPath
  split
  · next h => simp [List.length_eq_zero.mp h]
  · next h =>
    have hne : s ≠ [] := by
      intro he
      subst he
      simp at h
    unfold specPathGrammar goPathAltPlain
    rw [specDots_eq, (specStates_eq s).2.1]
    simp only [goPathAltDotSlash, Bool.or_eq_true, beq_iff_eq]
    constructor
    · rintro (hAB | hdot | hdsl)
      · exact Or.inr (Or.inl hAB)
      · subst hdot
        exact Or.inr (Or.inl (Or.inl (by decide)))
      · exact Or.inr (Or.inr hdsl)
    · rintro (he | hAB | he2)
      · exact absurd he hne
      · exact Or.inl hAB
      · subst he2
        exact Or.inr (Or.inr rfl)

/-- Witness for C7 at the concrete string `./projects`. -/
theorem c7_isValidPath_law_witness :
    isValidPath "./projects".data = true :=
  (c7_isValidPath_law "./projects".data).mpr (Or.inr (Or.inl (by decide)))

/-- A feature found violating by the scan has its `Selected` flag set. -/
theorem violates_selected {g : List (String × List String)}
    {w : List Feature} {f : Feature} (h : violates g w f = true) :
    f.selected = true := by
  unfold violates at h
  exact ((Bool.and_eq_true _ _).mp h).1

/-- One scan pass of `checkDependents` strictly decreases the number of
selected features whenever it changes anything: the feature it touches was
selected and its flag is cleared. -/
theorem dfv_some_count {g : List (String × List String)} {w : List Feature} :
    ∀ {l l1 : List Feature}, deselectFirstViolator g w l = some l1 →
      selectedCount l1 < selectedCount l := by
  intro l
  induction l with
  | nil => intro l1 h; exact absurd h (by simp [deselectFirstViolator])
  | cons f rest ih =>
    intro l1 h
    unfold deselectFirstViolator at h
    split at h
    · next hv =>
      cases h
      have hsel := violates_selected hv
      simp [selectedCount, List.countP_cons, hsel]
    · next hv =>
      rcases Option.map_eq_some'.mp h with ⟨r, hr, hl1⟩
      subst hl1
      have := ih hr
      simp only [selectedCount, List.countP_cons] at *
      omega

/-- When the scan pass finds nothing to deselect, no feature of the list is
violating. -/
theorem dfv_none {g : List (String × List String)} {w : List Feature} :
    ∀ {l : List Feature}, deselectFirstViolator g w l = none →
      ∀ f ∈ l, violates g w f = false := by
  intro l
  induction l with
  | nil => intro _ f hf; cases hf
  | cons f0 rest ih =>
    intro h f hf
    unfold deselectFirstViolator at h
    split at h
    · cases h
    · next hv =>
      rcases List.mem_cons.mp hf with rfl | hmem
      · exact Bool.of_not_eq_true hv
      · exact ih (by simpa using h) f hmem

/-- With enough fuel, the result of `checkDependentsFuel` contains no
violating feature: the fixed point satisfies the dependency invariant. -/
theorem checkDependentsFuel_inv (g : List (String × List String)) :
    ∀ (fuel : Nat) (fs : List Feature), selectedCount fs < fuel →
      ∀ f ∈ checkDependentsFuel g fuel fs,
        violates g (checkDependentsFuel g fuel fs) f = false := by
  intro fuel
  induction fuel with
  | zero => intro fs h; omega
  | succ n ih =>
    intro fs h
    cases hd : deselectFirstViolator g fs fs with
    | none =>
      simp only [checkDependentsFuel, hd]
      exact dfv_none hd
    | some fs1 =>
      simp only [checkDependentsFuel, hd]
      exact ih fs1 (by have := dfv_some_count hd; omega)

/-- Function `checkDependents` always returns a list with no violating feature. -/
theorem checkDependents_inv (g : List (String × List String))
    (fs : List Feature) :
    ∀ f ∈ checkDependents g fs, violates g (checkDependents g fs) f = false :=
  checkDependentsFuel_inv g (selectedCount fs + 1) fs (Nat.lt_succ_self _)

/-- A space-key toggle never breaks the dependency invariant: both branches
end in `checkDependents`, and an out-of-range cursor leaves the list
unchanged. -/
theorem toggleFeature_inv (g : List (String × List String))
    (fs : List Feature) (i : Nat)
    (hfs : ∀ f ∈ fs, violates g fs f = false) :
    ∀ f ∈ toggleFeature g fs i, violates g (toggleFeature g fs i) f = false := by
  unfold toggleFeature
  cases hg : fs.get? i with
  | none => exact hfs
  | some f0 =>
    dsimp only
    by_cases hs : f0.selected = true
    · rw [if_pos hs]
      exact checkDependents_inv g _
    · rw [if_neg hs]
      exact checkDependents_inv g _

/-- The dependency invariant is preserved by every sequence of toggles. -/
theorem applyToggles_inv (g : List (String × List String)) :
    ∀ (events : List Nat) (fs : List Feature),
      (∀ f ∈ fs, violates g fs f = false) →
      ∀ f ∈ applyToggles g fs events,
        violates g (applyToggles g fs events) f = false := by
  intro events
  induction events with
  | nil => intro fs h; exact h
  | cons e rest ih =>
    intro fs h
    exact ih (toggleFeature g fs e) (toggleFeature_inv g fs e h)

/-- C1: after any sequence of space-key toggle events processed by the
wizard in the Features state, every selected feature has every name listed
for it in `featureDependencies` selected as well. -/
theorem c1_resolver_invariant (events : List Nat) (f : Feature)
    (hf : f ∈ applyToggles featureDependencies initialFeatures events)
    (hsel : f.selected = true) (d : String)
    (hd : d ∈ (lookupDeps featureDependencies f.name).getD []) :
    ∃ f1, f1 ∈ applyToggles featureDependencies initialFeatures events ∧
      f1.name = d ∧ f1.selected = true := by
  have hinv := applyToggles_inv featureDependencies events initialFeatures
    (by decide) f hf
  unfold violates at hinv
  rw [hsel, Bool.true_and] at hinv
  cases hlk : lookupDeps featureDependencies f.name with
  | none => rw [hlk] at hd; cases hd
  | some deps =>
    rw [hlk] at hinv hd
    simp only [Option.getD_some] at hd
    have hmet : depsMet (applyToggles featureDependencies initialFeatures events)
        deps = true := by simpa using hinv
    have := List.all_eq_true.mp hmet d hd
    rcases List.any_eq_true.mp this with ⟨f1, hf1, hp⟩
    rcases (Bool.and_eq_true _ _).mp hp with ⟨hn, hs⟩
    exact ⟨f1, hf1, eq_of_beq hn, hs⟩

/-- Witness for C1: with no toggles at all, the initially selected
`User Management` feature has its dependency `Authentication (JWT)`
selected. -/
theorem c1_resolver_invariant_witness :
    ∃ f1, f1 ∈ applyToggles featureDependencies initialFeatures [] ∧
      f1.name = "Authentication (JWT)" ∧ f1.selected = true :=
  c1_resolver_invariant []
    ⟨"User Management", "User registration, profiles, RBAC", true, true⟩
    (by decide) rfl "Authentication (JWT)" (by decide)

/-- Function `checkDependentsFuel` is independent of the fuel once the fuel exceeds
the number of selected features. -/
theorem checkDependentsFuel_stable (g : List (String × List String)) :
    ∀ (fuel1 fuel2 : Nat) (fs : List Feature),
      selectedCount fs < fuel1 → selectedCount fs < fuel2 →
      checkDependentsFuel g fuel1 fs = checkDependentsFuel g fuel2 fs := by
  intro fuel1
  induction fuel1 with
  | zero => intro fuel2 fs h1; omega
  | succ n ih =>
    intro fuel2 fs h1 h2
    cases fuel2 with
    | zero => omega
    | succ m =>
      cases hd : deselectFirstViolator g fs fs with
      | none => simp only [checkDependentsFuel, hd]
      | some fs1 =>
        simp only [checkDependentsFuel, hd]
        have hc := dfv_some_count hd
        exact ih m fs1 (by omega) (by omega)

/-- C9: `checkDependents` terminates on every input and every dependency
map, cyclic ones included — each recursive self-call happens only after a
`Selected` flag is flipped from true to false, so every scan pass that
recurses strictly decreases the number of selected features (first
conjunct), and therefore fuel `fs.length` (which bounds `selectedCount fs`)
already reaches the fixed point computed by `checkDependents` (second
conjunct). -/
theorem c9_checkDependents_terminates :
    (∀ (g : List (String × List String)) (w l l1 : List Feature),
        deselectFirstViolator g w l = some l1 →
          selectedCount l1 < selectedCount l) ∧
    (∀ (g : List (String × List String)) (fs : List Feature) (fuel : Nat),
        fs.length < fuel →
          checkDependentsFuel g fuel fs = checkDependents g fs) := by
  constructor
  · intro g w l l1 h
    exact dfv_some_count h
  · intro g fs fuel h
    have hcp : selectedCount fs ≤ fs.length := List.countP_le_length _
    exact checkDependentsFuel_stable g fuel (selectedCount fs + 1) fs
      (by omega) (Nat.lt_succ_self _)

/-- Witness for C9: on the initial catalog and the program's dependency map,
fuel 8 (the list length 7 plus one) computes exactly `checkDependents`, and
a concrete violating scan (catalog with only `User Management` selected)
decreases the selected count. -/
theorem c9_checkDependents_terminates_witness :
    checkDependentsFuel featureDependencies 8 initialFeatures =
      checkDependents featureDependencies initialFeatures ∧
    selectedCount
        (Option.getD
          (deselectFirstViolator featureDependencies
            (featuresWithFlags [false, true, false, false, false, false, false])
            (featuresWithFlags [false, true, false, false, false, false, false]))
          []) <
      selectedCount (featuresWithFlags [false, true, false, false, false, false, false]) :=
  ⟨c9_checkDependents_terminates.2 featureDependencies initialFeatures 8 (by decide),
   c9_checkDependents_terminates.1 featureDependencies
     (featuresWithFlags [false, true, false, false, false, false, false])
     (featuresWithFlags [false, true, false, false, false, false, false])
     _ (by decide)⟩

/-- C8: the select operation (set the toggled feature's `Selected` flag,
then run `enableDependencies` on its name) is idempotent on every state of
the feature catalog and for every feature: the walk of `enableDependencies`
never reads `Selected` flags, so a second run repeats exactly the same
flag-setting writes. -/
theorem c8_select_idempotent :
    ∀ (b0 b1 b2 b3 b4 b5 b6 : Bool) (i : Fin 7),
      selectOp featureDependencies
          (selectOp featureDependencies
            (featuresWithFlags [b0, b1, b2, b3, b4, b5, b6]) i.val) i.val =
        selectOp featureDependencies
          (featuresWithFlags [b0, b1, b2, b3, b4, b5, b6]) i.val := by
  decide

/-- C4 counterexample: from the Features state, Enter moves the controller
to `StateEnvVars`, not to `StateConfirm` — the environment-variable screen
sits between Features and Confirm. -/
theorem c4_counterexample :
    (updateEnter { newModel with state := State.StateFeatures }).state =
        State.StateEnvVars ∧
      (updateEnter { newModel with state := State.StateFeatures }).state ≠
        State.StateConfirm :=
  ⟨by decide, by decide⟩

/-- C4 amended: Enter in the Features state transitions to `StateEnvVars`
(the environment-variable screen), and Confirm is then reached from
`StateEnvVars` by Tab when no value is being edited. -/
theorem c4_features_enter_amended :
    (∀ m : WModel, m.state = State.StateFeatures →
        (updateEnter m).state = State.StateEnvVars) ∧
    (∀ m : WModel, m.state = State.StateEnvVars → m.envEditing = false →
        (updateTab m).state = State.StateConfirm) := by
  constructor
  · intro m hm
    unfold updateEnter
    rw [hm]
  · intro m hm he
    unfold updateTab
    rw [hm]
    dsimp only
    rw [he]
    rfl

/-- Witness for C4 at concrete models in the Features and EnvVars states. -/
theorem c4_features_enter_amended_witness :
    (updateEnter { newModel with state := State.StateFeatures }).state =
        State.StateEnvVars ∧
      (updateTab { newModel with state := State.StateEnvVars }).state =
        State.StateConfirm :=
  ⟨c4_features_enter_amended.1 _ rfl, c4_features_enter_amended.2 _ rfl rfl⟩

/-- C2 counterexample: when `git init` fails, `createProject` surfaces the
error and removes the project directory, contradicting the claim that
version-control failures are always swallowed and never trigger rollback. -/
theorem c2_counterexample :
    createProject
        ⟨false, none, none, none, none, none, none,
          ⟨some "exit status 1", none, none, none, none⟩⟩ =
      (Except.error "failed to initialize git: exit status 1", false) := rfl

/-- C2 amended: version-control sub-steps other than `git init` (the two
`git config` calls, `git add`, `git commit`) are best-effort — whatever
their outcomes, `createProject` still returns success and keeps the project
directory — while a `git init` failure is surfaced as an error and does
trigger rollback. -/
theorem c2_vcs_best_effort_amended :
    (∀ o : StepOutcomes, o.statSaysExists = false → o.mkdirErr = none →
        o.copyBaseErr = none → o.copyFeaturesErr = none →
        o.genMainErr = none → o.genRoutesErr = none → o.replaceErr = none →
        o.git.initErr = none → createProject o = (Except.ok (), true)) ∧
    (∀ o : StepOutcomes, o.statSaysExists = false → o.mkdirErr = none →
        o.copyBaseErr = none → o.copyFeaturesErr = none →
        o.genMainErr = none → o.genRoutesErr = none → o.replaceErr = none →
        ∀ e, o.git.initErr = some e →
          createProject o =
            (Except.error ("failed to initialize git: " ++ e), false)) := by
  constructor
  · intro o h1 h2 h3 h4 h5 h6 h7 h8
    unfold createProject initializeGit
    rw [h1, h2, h3, h4, h5, h6, h7, h8]
    rfl
  · intro o h1 h2 h3 h4 h5 h6 h7 e h8
    unfold createProject initializeGit
    rw [h1, h2, h3, h4, h5, h6, h7, h8]
    rfl

/-- Witness for C2: with failing `git add` and `git commit` (but a working
`git init`), the run still succeeds and the directory survives. -/
theorem c2_vcs_best_effort_amended_witness :
    createProject
        ⟨false, none, none, none, none, none, none,
          ⟨none, none, none, some "add failed", some "commit failed"⟩⟩ =
      (Except.ok (), true) :=
  c2_vcs_best_effort_amended.1 _ rfl rfl rfl rfl rfl rfl rfl rfl

/-- C3: if any step of `createProject` after directory creation (base copy,
feature overlay copy, main.go generation, routes.go generation, placeholder
rewrite) fails, the function returns an error and `projectDir` is removed
before returning. -/
theorem c3_materializer_atomicity (o : StepOutcomes)
    (hstat : o.statSaysExists = false) (hmk : o.mkdirErr = none)
    (hfail : o.copyBaseErr ≠ none ∨ o.copyFeaturesErr ≠ none ∨
      o.genMainErr ≠ none ∨ o.genRoutesErr ≠ none ∨ o.replaceErr ≠ none) :
    (∃ e, (createProject o).1 = Except.error e) ∧
      (createProject o).2 = false := by
  rcases o with ⟨s, mk, cb, cf, gm, gr, rp, git⟩
  simp only at hstat hmk hfail
  subst hstat
  subst hmk
  cases cb with
  | some e => exact ⟨⟨_, rfl⟩, rfl⟩
  | none =>
    cases cf with
    | some e => exact ⟨⟨_, rfl⟩, rfl⟩
    | none =>
      cases gm with
      | some e => exact ⟨⟨_, rfl⟩, rfl⟩
      | none =>
        cases gr with
        | some e => exact ⟨⟨_, rfl⟩, rfl⟩
        | none =>
          cases rp with
          | some e => exact ⟨⟨_, rfl⟩, rfl⟩
          | none =>
            rcases hfail with h | h | h | h | h <;> exact absurd rfl h

/-- Witness for C3: a failing base copy yields an error and no directory. -/
theorem c3_materializer_atomicity_witness :
    (∃ e, (createProject
        ⟨false, none, some "disk full", none, none, none, none,
          ⟨none, none, none, none, none⟩⟩).1 = Except.error e) ∧
      (createProject
        ⟨false, none, some "disk full", none, none, none, none,
          ⟨none, none, none, none, none⟩⟩).2 = false :=
  c3_materializer_atomicity _ rfl rfl (Or.inl (by simp))

/-- Auxiliary for C10: overriding the `Podman` key of the selection map
does not change its value at any of the six mapped feature names. -/
theorem setSel_podman_at (sel : String → Bool) (b : Bool) (n : String)
    (h : (n == "Podman") = false) : setSel sel "Podman" b n = sel n := by
  unfold setSel
  rw [h]
  rfl

/-- C10: the materializer ignores the `Podman` flag — the overlay feature
directories processed by `copySelectedFeaturesFromEmbed` and the template
contexts of `generateMainGo` and `generateRoutesGo` are identical whether
`selectedFeatures["Podman"]` is true or false, because `Podman` has no
`featureMap` entry and neither template context reads it. -/
theorem c10_podman_noninterference (sel : String → Bool) (b : Bool)
    (mn : String) :
    overlayFeatureIDs (setSel sel "Podman" b) = overlayFeatureIDs sel ∧
      generateMainGoData mn (setSel sel "Podman" b) =
        generateMainGoData mn sel ∧
      generateRoutesGoData mn (setSel sel "Podman" b) =
        generateRoutesGoData mn sel := by
  refine ⟨?_, ?_, ?_⟩
  · unfold overlayFeatureIDs catalogNames
    simp only [List.filterMap_cons, List.filterMap_nil]
    rw [setSel_podman_at sel b _ (by decide), setSel_podman_at sel b _ (by decide),
      setSel_podman_at sel b _ (by decide), setSel_podman_at sel b _ (by decide),
      setSel_podman_at sel b _ (by decide), setSel_podman_at sel b _ (by decide)]
    have hpod : lookupFeatureID "Podman" = none := by decide
    rw [hpod]
    simp only [ite_self]
  · unfold generateMainGoData
    rw [setSel_podman_at sel b _ (by decide), setSel_podman_at sel b _ (by decide),
      setSel_podman_at sel b _ (by decide), setSel_podman_at sel b _ (by decide),
      setSel_podman_at sel b _ (by decide), setSel_podman_at sel b _ (by decide)]
  · unfold generateRoutesGoData
    rw [setSel_podman_at sel b _ (by decide), setSel_podman_at sel b _ (by decide),
      setSel_podman_at sel b _ (by decide), setSel_podman_at sel b _ (by decide),
      setSel_podman_at sel b _ (by decide), setSel_podman_at sel b _ (by decide)]

/-- The empty pattern occurs in every string. -/
theorem occursIn_nil_pat (l : List Char) : occursIn [] l = true := by
  cases l with
  | nil => rfl
  | cons c rest => simp [occursIn, List.isPrefixOf]

/-- A prefix occurrence is an occurrence. -/
theorem occursIn_of_isPrefixOf {p l : List Char} (h : p.isPrefixOf l = true) :
    occursIn p l = true := by
  cases l with
  | nil =>
    have hp : p = [] := by
      cases p with
      | nil => rfl
      | cons a q => simp [List.isPrefixOf] at h
    subst hp
    rfl
  | cons c rest => simp [occursIn, h]

/-- An occurrence in the tail is an occurrence. -/
theorem occursIn_cons_of {p l : List Char} (c : Char)
    (h : occursIn p l = true) : occursIn p (c :: l) = true := by
  simp [occursIn, h]

/-- An occurrence in a dropped suffix is an occurrence in the whole list. -/
theorem occursIn_drop {p l : List Char} (n : Nat)
    (h : occursIn p (l.drop n) = true) : occursIn p l = true := by
  induction n generalizing l with
  | zero => simpa using h
  | succ m ih =>
    cases l with
    | nil => simpa using h
    | cons c rest => exact occursIn_cons_of c (ih (by simpa using h))

/-- Contrapositive of `occursIn_drop`. -/
theorem occursIn_drop_of_not {p l : List Char} (n : Nat)
    (h : occursIn p l = false) : occursIn p (l.drop n) = false := by
  cases h2 : occursIn p (l.drop n) with
  | false => rfl
  | true => exact absurd (occursIn_drop n h2) (by simp [h])

/-- Decomposition of an occurrence in an append: the pattern occurs in the
left part, occurs in the right part, or spans the border — a nonempty suffix
of the left part glued to a nonempty prefix of the right part. -/
theorem occursIn_append {p : List Char} : ∀ {a b : List Char},
    occursIn p (a ++ b) = true →
      occursIn p a = true ∨ occursIn p b = true ∨
        ∃ u v, p = u ++ v ∧ u ≠ [] ∧ v ≠ [] ∧ u <:+ a ∧ v <+: b := by
  intro a
  induction a with
  | nil => intro b h; exact Or.inr (Or.inl (by simpa using h))
  | cons c a1 ih =>
    intro b h
    rw [List.cons_append] at h
    have h9 : p.isPrefixOf (c :: (a1 ++ b)) = true ∨
        occursIn p (a1 ++ b) = true := by
      simpa [occursIn] using h
    rcases h9 with hpre | hrest
    · have hp2 : p <+: (c :: a1) ++ b := by
        rw [List.cons_append]
        exact List.isPrefixOf_iff_prefix.mp hpre
      by_cases hlen : p.length ≤ (c :: a1).length
      · have hp3 : p <+: (c :: a1) := by
          have he : p = ((c :: a1) ++ b).take p.length :=
            List.prefix_iff_eq_take.mp hp2
          rw [List.take_append_of_le_length hlen] at he
          rw [he]
          exact List.take_prefix _ _
        exact Or.inl (occursIn_of_isPrefixOf (List.isPrefixOf_iff_prefix.mpr hp3))
      · push_neg at hlen
        have hu : (c :: a1) <+: p :=
          List.prefix_of_prefix_length_le (List.prefix_append _ _) hp2
            (Nat.le_of_lt hlen)
        have hpeq : p = (c :: a1) ++ p.drop (c :: a1).length := by
          rcases hu with ⟨t, ht⟩
          rw [← ht]
          simp
        refine Or.inr (Or.inr ⟨c :: a1, p.drop (c :: a1).length, hpeq,
          by simp, ?_, List.suffix_refl _, ?_⟩)
        · intro he
          rw [List.drop_eq_nil_iff] at he
          omega
        · rcases hp2 with ⟨t, ht⟩
          rw [hpeq, List.append_assoc] at ht
          have := List.append_cancel_left ht
          exact ⟨t, this⟩
    · rcases ih hrest with h1 | h1 | ⟨u, v, e1, e2, e3, e4, e5⟩
      · exact Or.inl (occursIn_cons_of c h1)
      · exact Or.inr (Or.inl h1)
      · exact Or.inr (Or.inr ⟨u, v, e1, e2, e3,
          e4.trans (List.suffix_cons c a1), e5⟩)

/-- Transport lemma: under the head condition of `safeRepl`, a nonempty
proper suffix of `p` that is a prefix of the rewritten string was already a
prefix of the input — scanning can shift such a suffix only across
characters it copies verbatim. -/
theorem prefix_transport {p pat rep : List Char} (hrep : rep ≠ [])
    (hhead : ∀ h, rep.head? = some h → (p.drop 1).contains h = false) :
    ∀ (fuel : Nat) (s : List Char), s.length ≤ fuel → ∀ (k : Nat), 1 ≤ k →
      p.drop k ≠ [] →
      (p.drop k).isPrefixOf (replaceAllFuel pat rep fuel s) = true →
      (p.drop k).isPrefixOf s = true := by
  intro fuel
  induction fuel with
  | zero =>
    intro s hs k hk hne hpre
    have hs0 : s = [] := List.length_eq_zero.mp (Nat.le_zero.mp hs)
    subst hs0
    cases hq : p.drop k with
    | nil => exact absurd hq hne
    | cons a t => rw [hq] at hpre; simp [replaceAllFuel, List.isPrefixOf] at hpre
  | succ n ih =>
    intro s hs k hk hne hpre
    cases s with
    | nil =>
      cases hq : p.drop k with
      | nil => exact absurd hq hne
      | cons a t => rw [hq] at hpre; simp [replaceAllFuel, List.isPrefixOf] at hpre
    | cons c rest =>
      simp only [replaceAllFuel] at hpre
      by_cases hm : pat ≠ [] ∧ pat.isPrefixOf (c :: rest)
      · rw [if_pos hm] at hpre
        exfalso
        cases hq : p.drop k with
        | nil => exact hne hq
        | cons q0 q1 =>
          cases hrepc : rep with
          | nil => exact hrep hrepc
          | cons r0 rt =>
            rw [hq, hrepc, List.cons_append] at hpre
            simp only [List.isPrefixOf, Bool.and_eq_true] at hpre
            have hq0r : q0 = r0 := eq_of_beq hpre.1
            have hq0 : q0 ∈ p.drop 1 := by
              have m1 : q0 ∈ p.drop k := by
                rw [hq]
                exact List.mem_cons_self _ _
              have m2 : p.drop k = (p.drop 1).drop (k - 1) := by
                rw [List.drop_drop]
                congr 1
                omega
              rw [m2] at m1
              exact List.drop_subset _ _ m1
            have hnot := hhead r0 (by rw [hrepc]; rfl)
            rw [hq0r] at hq0
            have hnot2 : r0 ∉ p.drop 1 := by simpa using hnot
            exact hnot2 hq0
      · rw [if_neg hm] at hpre
        cases hq : p.drop k with
        | nil => exact absurd hq hne
        | cons q0 q1 =>
          rw [hq] at hpre
          simp only [List.isPrefixOf, Bool.and_eq_true] at hpre
          obtain ⟨hq0, hq1⟩ := hpre
          simp only [List.isPrefixOf, Bool.and_eq_true]
          refine ⟨hq0, ?_⟩
          by_cases hq1e : q1 = []
          · subst hq1e
            simp [List.isPrefixOf]
          · have hq1d : q1 = p.drop (k + 1) := by
              calc q1 = ((q0 :: q1).drop 1 : List Char) := rfl
                _ = (p.drop k).drop 1 := by rw [hq]
                _ = p.drop (k + 1) := List.drop_drop 1 k p
            have hlen : rest.length ≤ n := by
              simp only [List.length_cons] at hs
              omega
            have hres := ih rest hlen (k + 1) (by omega)
              (by rw [← hq1d]; exact hq1e) (by rw [← hq1d]; exact hq1)
            rw [hq1d]
            exact hres

/-- Unpacking of the `safeRepl` side conditions. -/
theorem safeRepl_spec {p pat rep : List Char} (h : safeRepl p pat rep = true) :
    pat ≠ [] ∧ rep ≠ [] ∧ occursIn p rep = false ∧
      (∀ u, u ≠ [] → u <:+ rep → u.isPrefixOf p = false) ∧
      (∀ c, rep.head? = some c → (p.drop 1).contains c = false) := by
  unfold safeRepl at h
  simp only [Bool.and_eq_true] at h
  obtain ⟨⟨⟨⟨h1, h2⟩, h3⟩, h4⟩, h5⟩ := h
  refine ⟨?_, ?_, ?_, ?_, ?_⟩
  · intro he
    rw [he] at h1
    simp at h1
  · intro he
    rw [he] at h2
    simp at h2
  · simpa using h3
  · intro u hu husfx
    have hm := List.all_eq_true.mp h4 u ((List.mem_tails u rep).mpr husfx)
    rcases Bool.or_eq_true _ _ ▸ hm with he | hnp
    · exact absurd (by simpa using he) hu
    · simpa using hnp
  · intro c hc
    cases hrep : rep with
    | nil => rw [hrep] at h5; simp at h5
    | cons r0 rt =>
      rw [hrep] at h5 hc
      simp only [List.head?] at hc
      cases hc
      simpa using h5

/-- Core removal lemma: under the `safeRepl` side conditions, rewriting with
`pat → rep` leaves no occurrence of `p` in the output — both when `p` is the
replaced pattern itself and when `p` is any string that did not occur in the
input (occurrences can neither survive, since every copy of `pat` is
replaced, nor be created, since `rep` cannot overlap `p` across borders). -/
theorem occursIn_replaceAllFuel {p pat rep : List Char}
    (hsafe : safeRepl p pat rep = true) :
    ∀ (fuel : Nat) (s : List Char), s.length ≤ fuel →
      (p = pat ∨ occursIn p s = false) →
      occursIn p (replaceAllFuel pat rep fuel s) = false := by
  obtain ⟨h1, h2, h3, h4, h5⟩ := safeRepl_spec hsafe
  have hpne : p ≠ [] := by
    intro he
    rw [he, occursIn_nil_pat] at h3
    cases h3
  intro fuel
  induction fuel with
  | zero =>
    intro s hs hor
    have hs0 : s = [] := List.length_eq_zero.mp (Nat.le_zero.mp hs)
    subst hs0
    cases hp : p with
    | nil => exact absurd hp hpne
    | cons a q => rfl
  | succ n ih =>
    intro s hs hor
    cases s with
    | nil =>
      cases hp : p with
      | nil => exact absurd hp hpne
      | cons a q => rfl
    | cons c rest =>
      by_cases hm : pat ≠ [] ∧ pat.isPrefixOf (c :: rest)
      · have hres : replaceAllFuel pat rep (n + 1) (c :: rest) =
            rep ++ replaceAllFuel pat rep n ((c :: rest).drop pat.length) := by
          simp only [replaceAllFuel]
          rw [if_pos hm]
        rw [hres]
        have hlen : ((c :: rest).drop pat.length).length ≤ n := by
          have hp1 : 0 < pat.length := List.length_pos.mpr h1
          simp only [List.length_drop, List.length_cons] at *
          omega
        have hor2 : p = pat ∨
            occursIn p ((c :: rest).drop pat.length) = false := by
          rcases hor with hpp | hno
          · exact Or.inl hpp
          · exact Or.inr (occursIn_drop_of_not _ hno)
        have hIH := ih ((c :: rest).drop pat.length) hlen hor2
        cases hocc : occursIn p
            (rep ++ replaceAllFuel pat rep n ((c :: rest).drop pat.length)) with
        | false => rfl
        | true =>
          exfalso
          rcases occursIn_append hocc with hA | hB | ⟨u, v, e1, e2, _, e4, _⟩
          · rw [hA] at h3; cases h3
          · rw [hB] at hIH; cases hIH
          · have hupfx : u.isPrefixOf p = true :=
              List.isPrefixOf_iff_prefix.mpr (by rw [e1]; exact List.prefix_append u v)
            rw [h4 u e2 e4] at hupfx
            cases hupfx
      · have hres : replaceAllFuel pat rep (n + 1) (c :: rest) =
            c :: replaceAllFuel pat rep n rest := by
          simp only [replaceAllFuel]
          rw [if_neg hm]
        rw [hres]
        have hor2 : p = pat ∨ occursIn p rest = false := by
          rcases hor with hpp | hno
          · exact Or.inl hpp
          · refine Or.inr ?_
            cases hocc : occursIn p rest with
            | false => rfl
            | true => rw [occursIn_cons_of c hocc] at hno; cases hno
        have hR := ih rest (by simp only [List.length_cons] at hs; omega) hor2
        have hpfx : p.isPrefixOf (c :: replaceAllFuel pat rep n rest) = false := by
          cases hpx : p.isPrefixOf (c :: replaceAllFuel pat rep n rest) with
          | false => rfl
          | true =>
            exfalso
            cases hp : p with
            | nil => exact hpne hp
            | cons p0 p1 =>
              rw [hp] at hpx
              simp only [List.isPrefixOf, Bool.and_eq_true] at hpx
              obtain ⟨hp0, hp1⟩ := hpx
              have hps : (p0 :: p1).isPrefixOf (c :: rest) = true := by
                simp only [List.isPrefixOf, Bool.and_eq_true]
                refine ⟨hp0, ?_⟩
                by_cases hp1e : p1 = []
                · subst hp1e
                  simp [List.isPrefixOf]
                · have hd : p.drop 1 = p1 := by rw [hp]; rfl
                  have hres2 := prefix_transport h2 h5 n rest
                    (by simp only [List.length_cons] at hs; omega) 1
                    (Nat.le_refl 1) (by rw [hd]; exact hp1e)
                    (by rw [hd]; exact hp1)
                  rw [hd] at hres2
                  exact hres2
              rcases hor with hpp | hno
              · rw [← hp] at hps
                rw [← hpp] at hm
                exact hm ⟨hpne, hps⟩
              · have hoc : occursIn (p0 :: p1) (c :: rest) = true := by
                  simp [occursIn, hps]
                rw [hp, hoc] at hno
                cases hno
        show occursIn p (c :: replaceAllFuel pat rep n rest) = false
        simp [occursIn, hpfx, hR]

/-- Removal lemma for `replaceAll` itself. -/
theorem occursIn_replaceAll {p pat rep : List Char}
    (hsafe : safeRepl p pat rep = true) (s : List Char)
    (hor : p = pat ∨ occursIn p s = false) :
    occursIn p (replaceAll s pat rep) = false :=
  occursIn_replaceAllFuel hsafe s.length s (Nat.le_refl _) hor

/-- C5 counterexample: a config file whose content is the module placeholder
`go_platform_template` keeps it verbatim — `replaceModuleNames` substitutes
only the project-name placeholder in config files, so the claim that both
placeholders are substituted in every config file is false. -/
theorem c5_counterexample :
    isConfigFile "config.yaml".data = true ∧
      occursIn templateModule
          (rewriteFileContent "config.yaml".data templateModule
            "widget".data "github.com/acme/widget".data) = true :=
  ⟨by decide, by decide⟩

/-- C5 amended: provided the chosen replacement strings cannot retain or
recreate the placeholders (the decidable `safeRepl` side conditions, which
hold e.g. for the spec's `github.com/acme/widget` / `widget`), after
`replaceModuleNames` no `.go` file contains either placeholder, and no
config file contains the project-name placeholder; config files may still
contain the module placeholder, which is only substituted in `.go` files. -/
theorem c5_rewrite_completeness_amended (path content pn mn : List Char)
    (h1 : safeRepl templateModule templateModule mn = true)
    (h2 : safeRepl templateName templateName pn = true)
    (h3 : safeRepl templateModule templateName pn = true) :
    (".go".data.isSuffixOf path = true →
        occursIn templateModule (rewriteFileContent path content pn mn) = false ∧
          occursIn templateName (rewriteFileContent path content pn mn) = false) ∧
    (".go".data.isSuffixOf path = false → isConfigFile path = true →
        occursIn templateName (rewriteFileContent path content pn mn) = false) := by
  constructor
  · intro hgo
    unfold rewriteFileContent
    simp only [hgo, if_true]
    constructor
    · exact occursIn_replaceAll h3 _
        (Or.inr (occursIn_replaceAll h1 _ (Or.inl rfl)))
    · exact occursIn_replaceAll h2 _ (Or.inl rfl)
  · intro hgo hcfg
    unfold rewriteFileContent
    simp only [hgo, hcfg, if_true, Bool.false_eq_true, if_false]
    exact occursIn_replaceAll h2 _ (Or.inl rfl)

/-- Witness for C5 with the spec's module and project names on a `.go` file
containing both placeholders. -/
theorem c5_rewrite_completeness_amended_witness :
    occursIn templateModule
        (rewriteFileContent "cmd/server/main.go".data
          ("x ".data ++ templateModule ++ " y ".data ++ templateName)
          "widget".data "github.com/acme/widget".data) = false ∧
      occursIn templateName
        (rewriteFileContent "cmd/server/main.go".data
          ("x ".data ++ templateModule ++ " y ".data ++ templateName)
          "widget".data "github.com/acme/widget".data) = false :=
  (c5_rewrite_completeness_amended "cmd/server/main.go".data
      ("x ".data ++ templateModule ++ " y ".data ++ templateName)
      "widget".data "github.com/acme/widget".data
      (by decide) (by decide) (by decide)).1 (by decide)

end GoApiTemplate
